import Mathlib

/-!
Verification of the io_uring bounded alloc cache (`alloc_cache.h`).

The repository holds two variants of the header:
* `Part000`: `io_alloc_cache_get`/`io_alloc_cache_free` take an explicit `size`
  argument and `put`/`get` invoke the KASAN instrumentation call-outs
  (`kasan_slab_free_mempool`, `kasan_unpoison_range`).
* `Part001`: no `size` argument and no KASAN call-outs.

Shallow embedding: entry addresses are natural numbers (`Ptr`), the heap of
intrusive link nodes is a total function `Ptr → io_cache_entry α` where `α` is
the opaque payload type, a C NULL pointer is `Option.none`, and the stateful C
functions become pure functions returning the new cache, the new heap, the
return value, and the list of sanitizer call-outs performed (the KASAN calls
are advisory and do not change the modelled state).  The unbounded `while`
loop of `io_alloc_cache_free` is embedded with explicit fuel; theorems about
it supply enough fuel for the chain actually present.
-/

set_option autoImplicit false

namespace AllocCache

variable {α β : Type}

/-- An entry address; C `NULL` is modelled as `Option.none` around a `Ptr`. -/
abbrev Ptr := Nat

/-- `struct io_wq_work_node`: a single forward link. -/
structure io_wq_work_node where
  next : Option Ptr
deriving Repr, DecidableEq

/-- `struct io_cache_entry` together with the rest of the object's memory:
the embedded link node plus the opaque payload the cache must never touch. -/
structure io_cache_entry (α : Type) where
  node : io_wq_work_node
  payload : α

/-- The heap of all entries, addressed by `Ptr`. -/
abbrev Heap (α : Type) := Ptr → io_cache_entry α

/-- `struct io_alloc_cache`: the stack head holder and the cached count. -/
structure io_alloc_cache where
  list : io_wq_work_node
  nr_cached : Nat
deriving Repr, DecidableEq

/-- `#define IO_ALLOC_CACHE_MAX 512`. -/
def IO_ALLOC_CACHE_MAX : Nat := 512

/-- Sanitizer call-outs performed by the cache, recorded as events. -/
inductive KasanEvent where
  | slab_free_mempool (entry : Ptr)
  | unpoison_range (entry : Ptr) (size : Nat)
deriving Repr, DecidableEq

/-- Store a new value of the link field of the entry at `p` (the C write
`node->next = nx`); every other byte of the heap is left alone. -/
def setNext (heap : Heap α) (p : Ptr) (nx : Option Ptr) : Heap α :=
  fun q => if q = p then ⟨⟨nx⟩, (heap p).payload⟩ else heap q

/-- Modelled from the spec: `wq_stack_add_head(&entry->node, &cache->list)` is
declared outside the two header variants.  Per the spec, `put` "links `entry`
as the new head (its link field set to the previous head)", i.e.
`node->next = stack->next; stack->next = node;`. -/
def wq_stack_add_head (heap : Heap α) (node : Ptr) (stack : io_wq_work_node) :
    Heap α × io_wq_work_node :=
  (setNext heap node stack.next, ⟨some node⟩)

/-- Result of `io_alloc_cache_put`. -/
structure PutRes (α : Type) where
  ok : Bool
  cache : io_alloc_cache
  heap : Heap α
  events : List KasanEvent

/-- Result of `io_alloc_cache_get`. -/
structure GetRes (α : Type) where
  entry : Option Ptr
  cache : io_alloc_cache
  heap : Heap α
  events : List KasanEvent

/-- Result of `io_alloc_cache_free`; `freed` is the sequence of entries the
`free` callback was invoked on, in call order. -/
structure DrainRes (α : Type) where
  cache : io_alloc_cache
  heap : Heap α
  freed : List Ptr
  events : List KasanEvent

namespace Part001

/-- `io_alloc_cache_put` of the variant without KASAN call-outs. -/
def io_alloc_cache_put (cache : io_alloc_cache) (heap : Heap α) (entry : Ptr) :
    PutRes α :=
  if cache.nr_cached < IO_ALLOC_CACHE_MAX then
    let r := wq_stack_add_head heap entry cache.list
    { ok := true
      cache := { list := r.2, nr_cached := cache.nr_cached + 1 }
      heap := r.1
      events := [] }
  else
    { ok := false, cache := cache, heap := heap, events := [] }

/-- `io_alloc_cache_get` of the variant without KASAN call-outs; `container_of`
on a node at offset 0 is the identity on the address. -/
def io_alloc_cache_get (cache : io_alloc_cache) (heap : Heap α) : GetRes α :=
  match cache.list.next with
  | some node =>
      { entry := some node
        cache := { cache with list := ⟨(heap node).node.next⟩ }
        heap := heap
        events := [] }
  | none => { entry := none, cache := cache, heap := heap, events := [] }

/-- `io_alloc_cache_init`: head NULL, count 0. -/
def io_alloc_cache_init : io_alloc_cache :=
  { list := ⟨none⟩, nr_cached := 0 }

/-- The `while (cache->list.next)` loop of `io_alloc_cache_free`, with fuel;
`acc` collects the entries passed to the `free` callback, in order. -/
def free_loop (heap : Heap α) :
    Nat → io_wq_work_node → List Ptr → io_wq_work_node × List Ptr
  | 0, list, acc => (list, acc)
  | Nat.succ fuel, list, acc =>
      match list.next with
      | some node => free_loop heap fuel ⟨(heap node).node.next⟩ (acc ++ [node])
      | none => (list, acc)

/-- `io_alloc_cache_free` of the variant without KASAN call-outs: pop every
entry, hand it to the callback, then `cache->nr_cached = 0`. -/
def io_alloc_cache_free (cache : io_alloc_cache) (heap : Heap α) (fuel : Nat) :
    DrainRes α :=
  let r := free_loop heap fuel cache.list []
  { cache := { list := r.1, nr_cached := 0 }
    heap := heap
    freed := r.2
    events := [] }

end Part001

namespace Part000

/-- `io_alloc_cache_put` of the KASAN variant; `kasan_slab_free_mempool` is
modelled from the spec as an advisory call-out that does not change state. -/
def io_alloc_cache_put (cache : io_alloc_cache) (heap : Heap α) (entry : Ptr) :
    PutRes α :=
  if cache.nr_cached < IO_ALLOC_CACHE_MAX then
    let r := wq_stack_add_head heap entry cache.list
    { ok := true
      cache := { list := r.2, nr_cached := cache.nr_cached + 1 }
      heap := r.1
      events := [KasanEvent.slab_free_mempool entry] }
  else
    { ok := false, cache := cache, heap := heap, events := [] }

/-- `io_alloc_cache_get` of the KASAN variant; `kasan_unpoison_range` is
modelled from the spec as an advisory call-out that does not change state. -/
def io_alloc_cache_get (cache : io_alloc_cache) (heap : Heap α) (size : Nat) :
    GetRes α :=
  match cache.list.next with
  | some node =>
      { entry := some node
        cache := { cache with list := ⟨(heap node).node.next⟩ }
        heap := heap
        events := [KasanEvent.unpoison_range node size] }
  | none => { entry := none, cache := cache, heap := heap, events := [] }

/-- `io_alloc_cache_init`: head NULL, count 0 (identical in both variants). -/
def io_alloc_cache_init : io_alloc_cache :=
  { list := ⟨none⟩, nr_cached := 0 }

/-- The `while ((entry = io_alloc_cache_get(cache, size)))` loop of the KASAN
variant's `io_alloc_cache_free`, with fuel. -/
def free_loop (heap : Heap α) (size : Nat) :
    Nat → io_alloc_cache → List Ptr → List KasanEvent →
      io_alloc_cache × List Ptr × List KasanEvent
  | 0, cache, acc, evs => (cache, acc, evs)
  | Nat.succ fuel, cache, acc, evs =>
      let g := io_alloc_cache_get cache heap size
      match g.entry with
      | some e => free_loop heap size fuel g.cache (acc ++ [e]) (evs ++ g.events)
      | none => (cache, acc, evs)

/-- `io_alloc_cache_free` of the KASAN variant. -/
def io_alloc_cache_free (cache : io_alloc_cache) (heap : Heap α)
    (size fuel : Nat) : DrainRes α :=
  let r := free_loop heap size fuel cache [] []
  { cache := { list := r.1.list, nr_cached := 0 }
    heap := heap
    freed := r.2.1
    events := r.2.2 }

end Part000

/-- The chain of entries reachable from link `x`: `Chain heap x l` holds when
following the links from `x` visits exactly the entries of `l` and ends at
NULL.  Existence of such an `l` is NULL-termination (a cyclic chain admits no
finite derivation). -/
inductive Chain (heap : Heap α) : Option Ptr → List Ptr → Prop where
  | nil : Chain heap none []
  | cons (p : Ptr) (l : List Ptr) :
      Chain heap (heap p).node.next l → Chain heap (some p) (p :: l)

/-- The cache invariant of the spec: `nr_cached` equals the length of the
NULL-terminated chain hanging off `list`. -/
def CacheInv (cache : io_alloc_cache) (heap : Heap α) : Prop :=
  ∃ l, Chain heap cache.list.next l ∧ cache.nr_cached = l.length

/-- A concrete heap for witnesses: every link NULL, every payload 0. -/
def testHeap : Heap Nat := fun _ => ⟨⟨none⟩, 0⟩

/-- Rename every payload in the heap, leaving all link fields alone.  The
cache operations commute with it exactly when they never read a payload. -/
def mapPayload (f : α → β) (heap : Heap α) : Heap β :=
  fun p => ⟨(heap p).node, f (heap p).payload⟩

/-- The state after `init; put 7` on the witness heap. -/
def c2put : PutRes Nat :=
  Part001.io_alloc_cache_put Part001.io_alloc_cache_init testHeap 7

/-- The state after `init; put 7; get` on the witness heap. -/
def c2get : GetRes Nat := Part001.io_alloc_cache_get c2put.cache c2put.heap

/-- An operation of the cache interface, for whole-sequence statements; the
fuel on `drain` bounds the modelled `while` loop. -/
inductive Op where
  | put (entry : Ptr)
  | get
  | drain (fuel : Nat)
deriving Repr, DecidableEq

/-- The caller-visible outcome of one operation: the boolean of `put`, the
entry (or NULL) of `get`, and the sequence of `free`-callback invocations of
`drain`. -/
inductive Res where
  | putRes (ok : Bool)
  | getRes (entry : Option Ptr)
  | drainRes (freed : List Ptr)
deriving Repr, DecidableEq

/-- Final state and traces of a run of a sequence of operations. -/
structure RunRes (α : Type) where
  cache : io_alloc_cache
  heap : Heap α
  results : List Res
  events : List KasanEvent

namespace Part001

/-- One step of the variant without KASAN call-outs. -/
def runOp (cache : io_alloc_cache) (heap : Heap α) :
    Op → io_alloc_cache × Heap α × Res × List KasanEvent
  | Op.put e =>
      let r := io_alloc_cache_put cache heap e
      (r.cache, r.heap, Res.putRes r.ok, r.events)
  | Op.get =>
      let r := io_alloc_cache_get cache heap
      (r.cache, r.heap, Res.getRes r.entry, r.events)
  | Op.drain fuel =>
      let r := io_alloc_cache_free cache heap fuel
      (r.cache, r.heap, Res.drainRes r.freed, r.events)

/-- Run a sequence of operations in the variant without KASAN call-outs. -/
def run (cache : io_alloc_cache) (heap : Heap α) : List Op → RunRes α
  | [] => ⟨cache, heap, [], []⟩
  | op :: ops =>
      let s := runOp cache heap op
      let rest := run s.1 s.2.1 ops
      ⟨rest.cache, rest.heap, s.2.2.1 :: rest.results,
        s.2.2.2 ++ rest.events⟩

end Part001

namespace Part000

/-- One step of the KASAN variant, with its explicit `size`. -/
def runOp (size : Nat) (cache : io_alloc_cache) (heap : Heap α) :
    Op → io_alloc_cache × Heap α × Res × List KasanEvent
  | Op.put e =>
      let r := io_alloc_cache_put cache heap e
      (r.cache, r.heap, Res.putRes r.ok, r.events)
  | Op.get =>
      let r := io_alloc_cache_get cache heap size
      (r.cache, r.heap, Res.getRes r.entry, r.events)
  | Op.drain fuel =>
      let r := io_alloc_cache_free cache heap size fuel
      (r.cache, r.heap, Res.drainRes r.freed, r.events)

/-- Run a sequence of operations in the KASAN variant. -/
def run (size : Nat) (cache : io_alloc_cache) (heap : Heap α) :
    List Op → RunRes α
  | [] => ⟨cache, heap, [], []⟩
  | op :: ops =>
      let s := runOp size cache heap op
      let rest := run size s.1 s.2.1 ops
      ⟨rest.cache, rest.heap, s.2.2.1 :: rest.results,
        s.2.2.2 ++ rest.events⟩

end Part000

@[simp]
theorem setNext_same (heap : Heap α) (p : Ptr) (nx : Option Ptr) :
    setNext heap p nx p = ⟨⟨nx⟩, (heap p).payload⟩ := by
  simp [setNext]

theorem setNext_other (heap : Heap α) (p q : Ptr) (nx : Option Ptr)
    (h : q ≠ p) : setNext heap p nx q = heap q := by
  simp [setNext, h]

theorem chain_none (heap : Heap α) {l : List Ptr}
    (h : Chain heap none l) : l = [] := by
  cases h
  rfl

theorem chain_some {heap : Heap α} {p : Ptr} {l : List Ptr}
    (h : Chain heap (some p) l) :
    ∃ t, l = p :: t ∧ Chain heap (heap p).node.next t := by
  cases h with
  | cons p t ht => exact ⟨t, rfl, ht⟩

/-- Following the links from a given starting point determines the chain. -/
theorem chain_unique {heap : Heap α} {x : Option Ptr} {l₁ l₂ : List Ptr}
    (h₁ : Chain heap x l₁) (h₂ : Chain heap x l₂) : l₁ = l₂ := by
  induction h₁ generalizing l₂ with
  | nil => exact (chain_none heap h₂).symm
  | cons p l _ ih =>
      obtain ⟨t, rfl, ht⟩ := chain_some h₂
      exact congrArg (p :: ·) (ih ht)

theorem chain_mem {heap : Heap α} {x : Option Ptr} {l : List Ptr}
    (h : Chain heap x l) {q : Ptr} (hq : q ∈ l) :
    ∃ t, Chain heap (some q) t ∧ t.length ≤ l.length := by
  induction h with
  | nil => cases hq
  | cons p l hl ih =>
      rcases List.mem_cons.mp hq with rfl | hq
      · exact ⟨q :: l, Chain.cons q l hl, le_rfl⟩
      · obtain ⟨t, ht, hlen⟩ := ih hq
        exact ⟨t, ht, hlen.trans (Nat.le_succ _)⟩

/-- A NULL-terminated chain is acyclic: no entry occurs twice on it. -/
theorem chain_nodup {heap : Heap α} {x : Option Ptr} {l : List Ptr}
    (h : Chain heap x l) : l.Nodup := by
  induction h with
  | nil => exact List.nodup_nil
  | cons p l hl ih =>
      refine List.nodup_cons.mpr ⟨?_, ih⟩
      intro hp
      obtain ⟨t, ht, hlen⟩ := chain_mem hl hp
      have := chain_unique ht (Chain.cons p l hl)
      subst this
      simp at hlen

/-- Rewriting the heap away from the chain leaves the chain intact. -/
theorem chain_congr {heap heap' : Heap α} {x : Option Ptr} {l : List Ptr}
    (h : Chain heap x l)
    (hagree : ∀ q ∈ l, (heap' q).node.next = (heap q).node.next) :
    Chain heap' x l := by
  induction h with
  | nil => exact Chain.nil
  | cons p l hl ih =>
      refine Chain.cons p l ?_
      rw [hagree p (List.mem_cons_self p l)]
      exact ih fun q hq => hagree q (List.mem_cons_of_mem p hq)

/-- Claim C6: with `nr_cached ≥ IO_ALLOC_CACHE_MAX`, `io_alloc_cache_put`
returns failure and mutates nothing — head, count, the whole heap (hence the
chain and the entry's link field) are unchanged — and no sanitizer call-out is
invoked, in both source variants. -/
theorem put_full_no_mutation (cache : io_alloc_cache) (heap : Heap α)
    (entry : Ptr) (h : IO_ALLOC_CACHE_MAX ≤ cache.nr_cached) :
    Part000.io_alloc_cache_put cache heap entry =
      { ok := false, cache := cache, heap := heap, events := [] } ∧
    Part001.io_alloc_cache_put cache heap entry =
      { ok := false, cache := cache, heap := heap, events := [] } := by
  constructor <;>
    simp [Part000.io_alloc_cache_put, Part001.io_alloc_cache_put,
      Nat.not_lt.mpr h]

theorem put_full_no_mutation_witness :
    Part000.io_alloc_cache_put ⟨⟨none⟩, 512⟩ testHeap 7 =
      { ok := false, cache := ⟨⟨none⟩, 512⟩, heap := testHeap, events := [] } ∧
    Part001.io_alloc_cache_put ⟨⟨none⟩, 512⟩ testHeap 7 =
      { ok := false, cache := ⟨⟨none⟩, 512⟩, heap := testHeap, events := [] } :=
  put_full_no_mutation ⟨⟨none⟩, 512⟩ testHeap 7 (by decide)

/-- Claim C7: on an empty chain (head link NULL), `io_alloc_cache_get` returns
NULL and leaves the cache (head and count) and the heap unchanged, in both
source variants; no sanitizer call-out is invoked either. -/
theorem get_empty_no_mutation (cache : io_alloc_cache) (heap : Heap α)
    (size : Nat) (h : cache.list.next = none) :
    Part001.io_alloc_cache_get cache heap =
      { entry := none, cache := cache, heap := heap, events := [] } ∧
    Part000.io_alloc_cache_get cache heap size =
      { entry := none, cache := cache, heap := heap, events := [] } := by
  constructor <;>
    simp [Part001.io_alloc_cache_get, Part000.io_alloc_cache_get, h]

theorem get_empty_no_mutation_witness :
    Part001.io_alloc_cache_get ⟨⟨none⟩, 3⟩ testHeap =
      { entry := none, cache := ⟨⟨none⟩, 3⟩, heap := testHeap, events := [] } ∧
    Part000.io_alloc_cache_get ⟨⟨none⟩, 3⟩ testHeap 64 =
      { entry := none, cache := ⟨⟨none⟩, 3⟩, heap := testHeap, events := [] } :=
  get_empty_no_mutation ⟨⟨none⟩, 3⟩ testHeap 64 rfl

/-- Claim C8: on a non-empty chain, a successful `io_alloc_cache_get` returns
the head entry, advances `head` to the popped entry's stored link, and leaves
`nr_cached` unchanged, in both source variants. -/
theorem get_advances_head_count_unchanged (cache : io_alloc_cache)
    (heap : Heap α) (size : Nat) (p : Ptr) (h : cache.list.next = some p) :
    (Part001.io_alloc_cache_get cache heap).entry = some p ∧
    (Part001.io_alloc_cache_get cache heap).cache.list.next =
      (heap p).node.next ∧
    (Part001.io_alloc_cache_get cache heap).cache.nr_cached =
      cache.nr_cached ∧
    (Part000.io_alloc_cache_get cache heap size).entry = some p ∧
    (Part000.io_alloc_cache_get cache heap size).cache.list.next =
      (heap p).node.next ∧
    (Part000.io_alloc_cache_get cache heap size).cache.nr_cached =
      cache.nr_cached := by
  simp [Part001.io_alloc_cache_get, Part000.io_alloc_cache_get, h]

theorem get_advances_head_count_unchanged_witness :
    (Part001.io_alloc_cache_get ⟨⟨some 4⟩, 1⟩ testHeap).entry = some 4 ∧
    (Part001.io_alloc_cache_get ⟨⟨some 4⟩, 1⟩ testHeap).cache.list.next =
      (testHeap 4).node.next ∧
    (Part001.io_alloc_cache_get ⟨⟨some 4⟩, 1⟩ testHeap).cache.nr_cached = 1 ∧
    (Part000.io_alloc_cache_get ⟨⟨some 4⟩, 1⟩ testHeap 64).entry = some 4 ∧
    (Part000.io_alloc_cache_get ⟨⟨some 4⟩, 1⟩ testHeap 64).cache.list.next =
      (testHeap 4).node.next ∧
    (Part000.io_alloc_cache_get ⟨⟨some 4⟩, 1⟩ testHeap 64).cache.nr_cached =
      1 :=
  get_advances_head_count_unchanged ⟨⟨some 4⟩, 1⟩ testHeap 64 4 rfl

/-- Claim C5: when `put(e)` succeeds, an immediately following `get` returns
exactly `e`; no payload byte is written (`put` rewrites only `e`'s link field,
`get` writes nothing), and no payload byte is read (both operations commute
with an arbitrary renaming of every payload in the heap). -/
theorem put_get_round_trip (cache : io_alloc_cache) (heap : Heap α)
    (e : Ptr) (f : α → β) (h : cache.nr_cached < IO_ALLOC_CACHE_MAX) :
    let p := Part001.io_alloc_cache_put cache heap e
    p.ok = true ∧
    (Part001.io_alloc_cache_get p.cache p.heap).entry = some e ∧
    (∀ q, (p.heap q).payload = (heap q).payload) ∧
    (∀ q, q ≠ e → p.heap q = heap q) ∧
    (Part001.io_alloc_cache_put cache (mapPayload f heap) e).ok = p.ok ∧
    (Part001.io_alloc_cache_put cache (mapPayload f heap) e).cache = p.cache ∧
    (Part001.io_alloc_cache_put cache (mapPayload f heap) e).heap =
      mapPayload f p.heap ∧
    (Part001.io_alloc_cache_get p.cache (mapPayload f p.heap)).entry =
      (Part001.io_alloc_cache_get p.cache p.heap).entry ∧
    (Part001.io_alloc_cache_get p.cache (mapPayload f p.heap)).cache =
      (Part001.io_alloc_cache_get p.cache p.heap).cache := by
  refine ⟨?_, ?_, ?_, ?_, ?_, ?_, ?_, ?_, ?_⟩ <;>
    simp [Part001.io_alloc_cache_put, Part001.io_alloc_cache_get,
      wq_stack_add_head, h, mapPayload]
  · intro q
    by_cases hq : q = e <;> simp [setNext, hq]
  · intro q hq
    simp [setNext, hq]
  · funext q
    by_cases hq : q = e <;> simp [setNext, hq, mapPayload]

theorem put_get_round_trip_witness :
    (Part001.io_alloc_cache_put Part001.io_alloc_cache_init testHeap 5).ok =
      true ∧
    (Part001.io_alloc_cache_get
        (Part001.io_alloc_cache_put Part001.io_alloc_cache_init
          testHeap 5).cache
        (Part001.io_alloc_cache_put Part001.io_alloc_cache_init
          testHeap 5).heap).entry = some 5 :=
  ⟨(put_get_round_trip Part001.io_alloc_cache_init testHeap 5
      (fun n => n + 1) (by decide)).1,
   (put_get_round_trip Part001.io_alloc_cache_init testHeap 5
      (fun n => n + 1) (by decide)).2.1⟩

/-- Claim C3: for distinct entries `a`, `b`, `c` and any cache state in which
all three puts fit, after `put(a); put(b); put(c)` the next three `get` calls
return `c`, then `b`, then `a`. -/
theorem lifo_order (cache : io_alloc_cache) (heap : Heap α) (a b c : Ptr)
    (hab : a ≠ b) (hbc : b ≠ c) (hac : a ≠ c)
    (hcap : cache.nr_cached + 3 ≤ IO_ALLOC_CACHE_MAX) :
    let p1 := Part001.io_alloc_cache_put cache heap a
    let p2 := Part001.io_alloc_cache_put p1.cache p1.heap b
    let p3 := Part001.io_alloc_cache_put p2.cache p2.heap c
    let g1 := Part001.io_alloc_cache_get p3.cache p3.heap
    let g2 := Part001.io_alloc_cache_get g1.cache g1.heap
    let g3 := Part001.io_alloc_cache_get g2.cache g2.heap
    p1.ok = true ∧ p2.ok = true ∧ p3.ok = true ∧
    g1.entry = some c ∧ g2.entry = some b ∧ g3.entry = some a := by
  have hmax : IO_ALLOC_CACHE_MAX = 512 := rfl
  rw [hmax] at hcap
  have h1 : cache.nr_cached < IO_ALLOC_CACHE_MAX := by rw [hmax]; omega
  have h2 : cache.nr_cached + 1 < IO_ALLOC_CACHE_MAX := by rw [hmax]; omega
  have h3 : cache.nr_cached + 1 + 1 < IO_ALLOC_CACHE_MAX := by
    rw [hmax]; omega
  simp [Part001.io_alloc_cache_put, Part001.io_alloc_cache_get,
    wq_stack_add_head, setNext, h1, h2, h3, hab, hbc, hac,
    Ne.symm hab, Ne.symm hbc, Ne.symm hac]

theorem lifo_order_witness :
    (Part001.io_alloc_cache_put Part001.io_alloc_cache_init
        testHeap 1).ok = true ∧
    (Part001.io_alloc_cache_get
        (Part001.io_alloc_cache_put
          (Part001.io_alloc_cache_put
            (Part001.io_alloc_cache_put Part001.io_alloc_cache_init
              testHeap 1).cache
            (Part001.io_alloc_cache_put Part001.io_alloc_cache_init
              testHeap 1).heap 2).cache
          (Part001.io_alloc_cache_put
            (Part001.io_alloc_cache_put Part001.io_alloc_cache_init
              testHeap 1).cache
            (Part001.io_alloc_cache_put Part001.io_alloc_cache_init
              testHeap 1).heap 2).heap 3).cache
        (Part001.io_alloc_cache_put
          (Part001.io_alloc_cache_put
            (Part001.io_alloc_cache_put Part001.io_alloc_cache_init
              testHeap 1).cache
            (Part001.io_alloc_cache_put Part001.io_alloc_cache_init
              testHeap 1).heap 2).cache
          (Part001.io_alloc_cache_put
            (Part001.io_alloc_cache_put Part001.io_alloc_cache_init
              testHeap 1).cache
            (Part001.io_alloc_cache_put Part001.io_alloc_cache_init
              testHeap 1).heap 2).heap 3).heap).entry = some 3 :=
  ⟨(lifo_order Part001.io_alloc_cache_init testHeap 1 2 3
      (by decide) (by decide) (by decide) (by decide)).1,
   (lifo_order Part001.io_alloc_cache_init testHeap 1 2 3
      (by decide) (by decide) (by decide) (by decide)).2.2.2.1⟩

theorem chain_cons {heap : Heap α} {x : Option Ptr} {p : Ptr} {l : List Ptr}
    (h : Chain heap x (p :: l)) :
    x = some p ∧ Chain heap (heap p).node.next l := by
  cases h with
  | cons p l h => exact ⟨rfl, h⟩

/-- The drain loop run on a NULL-terminated chain with enough fuel pops the
whole chain in order and ends with the head link NULL. -/
theorem free_loop_chain {heap : Heap α} :
    ∀ (l : List Ptr) (fuel : Nat) (x : Option Ptr) (acc : List Ptr),
      Chain heap x l → l.length ≤ fuel →
      Part001.free_loop heap fuel ⟨x⟩ acc = (⟨none⟩, acc ++ l) := by
  intro l
  induction l with
  | nil =>
      intro fuel x acc hch _
      have hx : x = none := by cases hch; rfl
      subst hx
      cases fuel <;> simp [Part001.free_loop]
  | cons p t ih =>
      intro fuel x acc hch hlen
      obtain ⟨hx, hch'⟩ := chain_cons hch
      subst hx
      cases fuel with
      | zero => simp at hlen
      | succ f =>
          rw [Part001.free_loop]
          simp only []
          rw [ih f (heap p).node.next (acc ++ [p]) hch' (by simpa using hlen)]
          simp

theorem free_loop_next_none (heap : Heap α) (fuel : Nat) (acc : List Ptr) :
    Part001.free_loop heap fuel ⟨none⟩ acc = (⟨none⟩, acc) := by
  cases fuel <;> simp [Part001.free_loop]

/-- Claim C4: after `io_alloc_cache_free` on a NULL-terminated chain (given
enough fuel for the loop), the `free` callback was invoked exactly once per
entry that was on the chain at drain start, in pop order, and on nothing
else; the head link is NULL, `nr_cached` is 0, the heap is untouched, and a
subsequent `get` returns NULL. -/
theorem drain_complete (cache : io_alloc_cache) (heap : Heap α)
    (l : List Ptr) (fuel : Nat)
    (hch : Chain heap cache.list.next l) (hfuel : l.length ≤ fuel) :
    let d := Part001.io_alloc_cache_free cache heap fuel
    d.freed = l ∧ l.Nodup ∧
    d.cache.list.next = none ∧ d.cache.nr_cached = 0 ∧ d.heap = heap ∧
    (Part001.io_alloc_cache_get d.cache d.heap).entry = none := by
  obtain ⟨⟨x⟩, n⟩ := cache
  have hrun := free_loop_chain l fuel x [] hch hfuel
  refine ⟨?_, chain_nodup hch, ?_, rfl, rfl, ?_⟩ <;>
    simp [Part001.io_alloc_cache_free, Part001.io_alloc_cache_get, hrun]

theorem drain_complete_witness :
    (Part001.io_alloc_cache_free ⟨⟨some 4⟩, 1⟩ testHeap 1).freed = [4] ∧
    (Part001.io_alloc_cache_free ⟨⟨some 4⟩, 1⟩ testHeap 1).cache.nr_cached =
      0 ∧
    (Part001.io_alloc_cache_get
        (Part001.io_alloc_cache_free ⟨⟨some 4⟩, 1⟩ testHeap 1).cache
        (Part001.io_alloc_cache_free ⟨⟨some 4⟩, 1⟩ testHeap 1).heap).entry =
      none :=
  ⟨(drain_complete ⟨⟨some 4⟩, 1⟩ testHeap [4] 1
      (Chain.cons 4 [] Chain.nil) (by decide)).1,
   (drain_complete ⟨⟨some 4⟩, 1⟩ testHeap [4] 1
      (Chain.cons 4 [] Chain.nil) (by decide)).2.2.2.1,
   (drain_complete ⟨⟨some 4⟩, 1⟩ testHeap [4] 1
      (Chain.cons 4 [] Chain.nil) (by decide)).2.2.2.2.2⟩

/-- Claim C9: drain is idempotent.  After a first drain of a NULL-terminated
chain, a second drain with nothing put in between invokes the `free` callback
zero times and changes nothing; and drain on any already-empty cache (head
link NULL) invokes the callback zero times and leaves the empty state with
head NULL and count 0. -/
theorem drain_idempotent (cache : io_alloc_cache) (heap : Heap α)
    (l : List Ptr) (fuel₁ fuel₂ : Nat)
    (hch : Chain heap cache.list.next l) (hfuel : l.length ≤ fuel₁) :
    let d₁ := Part001.io_alloc_cache_free cache heap fuel₁
    let d₂ := Part001.io_alloc_cache_free d₁.cache d₁.heap fuel₂
    d₁.cache = ⟨⟨none⟩, 0⟩ ∧
    d₂.freed = [] ∧ d₂.cache = d₁.cache ∧ d₂.heap = d₁.heap ∧
    (∀ (c : io_alloc_cache) (f : Nat), c.list.next = none →
      (Part001.io_alloc_cache_free c heap f).freed = [] ∧
      (Part001.io_alloc_cache_free c heap f).cache = ⟨⟨none⟩, 0⟩) := by
  obtain ⟨⟨x⟩, n⟩ := cache
  have hrun := free_loop_chain l fuel₁ x [] hch hfuel
  have hempty : ∀ (c : io_alloc_cache) (f : Nat), c.list.next = none →
      (Part001.io_alloc_cache_free c heap f).freed = [] ∧
      (Part001.io_alloc_cache_free c heap f).cache = ⟨⟨none⟩, 0⟩ := by
    intro c f hc
    obtain ⟨⟨y⟩, m⟩ := c
    cases hc
    simp [Part001.io_alloc_cache_free, free_loop_next_none]
  refine ⟨?_, ?_, ?_, rfl, hempty⟩ <;>
    simp [Part001.io_alloc_cache_free, hrun, free_loop_next_none]

theorem drain_idempotent_witness :
    (Part001.io_alloc_cache_free ⟨⟨some 4⟩, 1⟩ testHeap 1).cache =
      ⟨⟨none⟩, 0⟩ ∧
    (Part001.io_alloc_cache_free
        (Part001.io_alloc_cache_free ⟨⟨some 4⟩, 1⟩ testHeap 1).cache
        (Part001.io_alloc_cache_free ⟨⟨some 4⟩, 1⟩ testHeap 1).heap
        5).freed = [] :=
  ⟨(drain_idempotent ⟨⟨some 4⟩, 1⟩ testHeap [4] 1 5
      (Chain.cons 4 [] Chain.nil) (by decide)).1,
   (drain_idempotent ⟨⟨some 4⟩, 1⟩ testHeap [4] 1 5
      (Chain.cons 4 [] Chain.nil) (by decide)).2.1⟩

/-- Claim C2 is false as stated: immediately after a successful `get` the
invariant "`nr_cached` equals the chain length" does not hold, because
`io_alloc_cache_get` never touches `nr_cached`.  After `init; put 7; get` the
chain is empty but `nr_cached` is still 1. -/
theorem count_chain_mismatch_after_get :
    c2get.entry = some 7 ∧ c2get.cache.nr_cached = 1 ∧
    c2get.cache.list.next = none ∧ ¬ CacheInv c2get.cache c2get.heap := by
  refine ⟨rfl, rfl, rfl, ?_⟩
  rintro ⟨l, hch, hcount⟩
  have hnone : c2get.cache.list.next = none := rfl
  rw [hnone] at hch
  rw [chain_none _ hch] at hcount
  exact absurd hcount (by decide)

/-- Claim C2 as amended: the invariant "`nr_cached` equals the length of the
chain, which is acyclic and NULL-terminated" holds after `init`, is preserved
by `put` of an entry not already on the chain, and is restored by `drain`
(given enough fuel); a successful `get` pops exactly the head of the chain
and leaves `nr_cached` unchanged, so immediately after it `nr_cached` exceeds
the chain length by exactly one, and equality returns once the caller
decrements the count. -/
theorem cache_invariant_init_put_drain {α : Type} :
    (∀ heap : Heap α, CacheInv Part001.io_alloc_cache_init heap) ∧
    (∀ (cache : io_alloc_cache) (heap : Heap α) (e : Ptr) (l : List Ptr),
      Chain heap cache.list.next l → cache.nr_cached = l.length → e ∉ l →
      CacheInv (Part001.io_alloc_cache_put cache heap e).cache
        (Part001.io_alloc_cache_put cache heap e).heap) ∧
    (∀ (cache : io_alloc_cache) (heap : Heap α) (p : Ptr) (l : List Ptr),
      Chain heap cache.list.next (p :: l) →
      cache.nr_cached = (p :: l).length →
      (Part001.io_alloc_cache_get cache heap).entry = some p ∧
      Chain heap (Part001.io_alloc_cache_get cache heap).cache.list.next l ∧
      (Part001.io_alloc_cache_get cache heap).cache.nr_cached =
        l.length + 1 ∧
      CacheInv ⟨(Part001.io_alloc_cache_get cache heap).cache.list,
        (Part001.io_alloc_cache_get cache heap).cache.nr_cached - 1⟩ heap) ∧
    (∀ (cache : io_alloc_cache) (heap : Heap α) (l : List Ptr) (fuel : Nat),
      Chain heap cache.list.next l → l.length ≤ fuel →
      CacheInv (Part001.io_alloc_cache_free cache heap fuel).cache
        (Part001.io_alloc_cache_free cache heap fuel).heap) ∧
    (∀ (cache : io_alloc_cache) (heap : Heap α), CacheInv cache heap →
      ∃ l, Chain heap cache.list.next l ∧ l.Nodup ∧
        cache.nr_cached = l.length) := by
  refine ⟨?_, ?_, ?_, ?_, ?_⟩
  · intro heap
    exact ⟨[], Chain.nil, rfl⟩
  · intro cache heap e l hch hcount hnotmem
    by_cases hlt : cache.nr_cached < IO_ALLOC_CACHE_MAX
    · refine ⟨e :: l, ?_, ?_⟩
      · simp only [Part001.io_alloc_cache_put, wq_stack_add_head, hlt,
          if_true]
        refine Chain.cons e l ?_
        rw [setNext_same]
        exact chain_congr hch fun q hq =>
          congrArg (fun x => x.node.next)
            (setNext_other heap e q cache.list.next
              fun h => hnotmem (h ▸ hq))
      · simp only [Part001.io_alloc_cache_put, if_pos hlt]
        simp [hcount]
    · refine ⟨l, by simpa [Part001.io_alloc_cache_put, hlt] using hch, ?_⟩
      simp only [Part001.io_alloc_cache_put, if_neg hlt]
      simpa using hcount
  · intro cache heap p l hch hcount
    obtain ⟨hx, hch'⟩ := chain_cons hch
    refine ⟨?_, ?_, ?_, ?_⟩ <;>
      simp [Part001.io_alloc_cache_get, hx, hcount]
    · exact hch'
    · exact ⟨l, hch', by simp⟩
  · intro cache heap l fuel hch hfuel
    obtain ⟨⟨x⟩, n⟩ := cache
    have hrun := free_loop_chain l fuel x [] hch hfuel
    refine ⟨[], ?_, rfl⟩
    simp [Part001.io_alloc_cache_free, hrun]
    exact Chain.nil
  · intro cache heap hinv
    obtain ⟨l, hch, hcount⟩ := hinv
    exact ⟨l, hch, chain_nodup hch, hcount⟩

theorem cache_invariant_init_put_drain_witness :
    CacheInv (Part001.io_alloc_cache_init : io_alloc_cache)
      (testHeap : Heap Nat) ∧
    CacheInv (Part001.io_alloc_cache_put Part001.io_alloc_cache_init
        testHeap 7).cache
      (Part001.io_alloc_cache_put Part001.io_alloc_cache_init
        testHeap 7).heap ∧
    CacheInv (Part001.io_alloc_cache_free ⟨⟨some 4⟩, 1⟩ testHeap 1).cache
      (Part001.io_alloc_cache_free ⟨⟨some 4⟩, 1⟩ testHeap 1).heap :=
  ⟨cache_invariant_init_put_drain.1 testHeap,
   cache_invariant_init_put_drain.2.1 Part001.io_alloc_cache_init testHeap 7
     [] Chain.nil rfl (by simp),
   cache_invariant_init_put_drain.2.2.2.1 ⟨⟨some 4⟩, 1⟩ testHeap [4] 1
     (Chain.cons 4 [] Chain.nil) (by decide)⟩

theorem put_nr_cached (cache : io_alloc_cache) (heap : Heap α) (e : Ptr) :
    (Part001.io_alloc_cache_put cache heap e).cache.nr_cached =
      if cache.nr_cached < IO_ALLOC_CACHE_MAX then cache.nr_cached + 1
      else cache.nr_cached := by
  by_cases h : cache.nr_cached < IO_ALLOC_CACHE_MAX <;>
    simp [Part001.io_alloc_cache_put, h]

/-- In a put-only run, the `i`-th `put` succeeds iff the starting count plus
`i` is still below `IO_ALLOC_CACHE_MAX`. -/
theorem run_puts_results {α : Type} :
    ∀ (ps : List Ptr) (cache : io_alloc_cache) (heap : Heap α) (i : Nat),
      i < ps.length →
      (Part001.run cache heap (ps.map Op.put)).results[i]? =
        some (Res.putRes
          (decide (cache.nr_cached + i < IO_ALLOC_CACHE_MAX))) := by
  intro ps
  induction ps with
  | nil => intro cache heap i hi; simp at hi
  | cons p ps ih =>
      intro cache heap i hi
      cases i with
      | zero =>
          by_cases h : cache.nr_cached < IO_ALLOC_CACHE_MAX <;>
            simp [Part001.run, Part001.runOp, Part001.io_alloc_cache_put, h]
      | succ i =>
          have hi' : i < ps.length := by simpa using hi
          simp only [List.map_cons, Part001.run, Part001.runOp,
            List.getElem?_cons_succ]
          rw [ih _ _ i hi']
          refine congrArg (fun b => some (Res.putRes b))
            (decide_eq_decide.mpr ?_)
          rw [put_nr_cached]
          split <;> omega

/-- In a put-only run, the final count is the starting count plus the number
of puts, clamped at `IO_ALLOC_CACHE_MAX`. -/
theorem run_puts_count {α : Type} :
    ∀ (ps : List Ptr) (cache : io_alloc_cache) (heap : Heap α),
      cache.nr_cached ≤ IO_ALLOC_CACHE_MAX →
      (Part001.run cache heap (ps.map Op.put)).cache.nr_cached =
        min (cache.nr_cached + ps.length) IO_ALLOC_CACHE_MAX := by
  intro ps
  induction ps with
  | nil =>
      intro cache heap hle
      simp only [List.map_nil, Part001.run, List.length_nil]
      omega
  | cons p ps ih =>
      intro cache heap hle
      simp only [List.map_cons, Part001.run, Part001.runOp,
        List.length_cons]
      rw [ih _ _ (by rw [put_nr_cached]; split <;> omega)]
      rw [put_nr_cached]
      split <;> omega

/-- Claim C1: starting from an initialized cache, in any put-only sequence
the `i`-th `put` returns success exactly when `i < IO_ALLOC_CACHE_MAX` (the
first 512 succeed, all later ones fail), and after every prefix of the
sequence `nr_cached` is at most `IO_ALLOC_CACHE_MAX`. -/
theorem capacity_bound (ps : List Ptr) (heap : Heap α) :
    (∀ i, i < ps.length →
      (Part001.run Part001.io_alloc_cache_init heap
          (ps.map Op.put)).results[i]? =
        some (Res.putRes (decide (i < IO_ALLOC_CACHE_MAX)))) ∧
    (∀ k, (Part001.run Part001.io_alloc_cache_init heap
        ((ps.take k).map Op.put)).cache.nr_cached ≤ IO_ALLOC_CACHE_MAX) := by
  constructor
  · intro i hi
    have h := run_puts_results ps Part001.io_alloc_cache_init heap i hi
    simpa [Part001.io_alloc_cache_init] using h
  · intro k
    have h := run_puts_count (ps.take k) Part001.io_alloc_cache_init heap
      (by simp [Part001.io_alloc_cache_init])
    rw [h]
    simp [Part001.io_alloc_cache_init]

theorem capacity_bound_witness :
    (Part001.run Part001.io_alloc_cache_init testHeap
        ([5].map Op.put)).results[0]? =
      some (Res.putRes (decide (0 < IO_ALLOC_CACHE_MAX))) ∧
    (Part001.run Part001.io_alloc_cache_init testHeap
        (([5].take 1).map Op.put)).cache.nr_cached ≤ IO_ALLOC_CACHE_MAX :=
  ⟨(capacity_bound [5] testHeap).1 0 (by decide),
   (capacity_bound [5] testHeap).2 1⟩

theorem put_equiv (cache : io_alloc_cache) (heap : Heap α) (e : Ptr) :
    (Part000.io_alloc_cache_put cache heap e).ok =
      (Part001.io_alloc_cache_put cache heap e).ok ∧
    (Part000.io_alloc_cache_put cache heap e).cache =
      (Part001.io_alloc_cache_put cache heap e).cache ∧
    (Part000.io_alloc_cache_put cache heap e).heap =
      (Part001.io_alloc_cache_put cache heap e).heap := by
  by_cases h : cache.nr_cached < IO_ALLOC_CACHE_MAX <;>
    simp [Part000.io_alloc_cache_put, Part001.io_alloc_cache_put, h]

theorem get_equiv (cache : io_alloc_cache) (heap : Heap α) (size : Nat) :
    (Part000.io_alloc_cache_get cache heap size).entry =
      (Part001.io_alloc_cache_get cache heap).entry ∧
    (Part000.io_alloc_cache_get cache heap size).cache =
      (Part001.io_alloc_cache_get cache heap).cache ∧
    (Part000.io_alloc_cache_get cache heap size).heap =
      (Part001.io_alloc_cache_get cache heap).heap := by
  cases hx : cache.list.next <;>
    simp [Part000.io_alloc_cache_get, Part001.io_alloc_cache_get, hx]

/-- The two drain loops pop the same entries and reach the same head link;
the KASAN variant's loop also never touches `nr_cached`. -/
theorem free_loop_equiv (heap : Heap α) (size : Nat) :
    ∀ (fuel : Nat) (cache : io_alloc_cache) (acc : List Ptr)
      (evs : List KasanEvent),
      (Part000.free_loop heap size fuel cache acc evs).1.list =
        (Part001.free_loop heap fuel cache.list acc).1 ∧
      (Part000.free_loop heap size fuel cache acc evs).1.nr_cached =
        cache.nr_cached ∧
      (Part000.free_loop heap size fuel cache acc evs).2.1 =
        (Part001.free_loop heap fuel cache.list acc).2 := by
  intro fuel
  induction fuel with
  | zero =>
      intro cache acc evs
      simp [Part000.free_loop, Part001.free_loop]
  | succ f ih =>
      intro cache acc evs
      cases hx : cache.list.next with
      | none =>
          simp [Part000.free_loop, Part001.free_loop,
            Part000.io_alloc_cache_get, hx]
      | some p =>
          simp only [Part000.free_loop, Part001.free_loop,
            Part000.io_alloc_cache_get, hx]
          simpa using ih { cache with list := ⟨(heap p).node.next⟩ }
            (acc ++ [p]) (evs ++ [KasanEvent.unpoison_range p size])

theorem free_equiv (cache : io_alloc_cache) (heap : Heap α)
    (size fuel : Nat) :
    (Part000.io_alloc_cache_free cache heap size fuel).cache =
      (Part001.io_alloc_cache_free cache heap fuel).cache ∧
    (Part000.io_alloc_cache_free cache heap size fuel).heap =
      (Part001.io_alloc_cache_free cache heap fuel).heap ∧
    (Part000.io_alloc_cache_free cache heap size fuel).freed =
      (Part001.io_alloc_cache_free cache heap fuel).freed := by
  obtain ⟨e1, e2, e3⟩ := free_loop_equiv heap size fuel cache [] []
  exact ⟨by simp [Part000.io_alloc_cache_free,
      Part001.io_alloc_cache_free, e1], rfl,
    by simp [Part000.io_alloc_cache_free,
      Part001.io_alloc_cache_free, e3]⟩

/-- Claim C10: the two source variants are behaviorally equivalent modulo the
sanitizer call-outs.  `init` is identical, and every sequence of operations
(run with the same drain fuel) produces the same put successes, `get`
entries, and `free`-callback invocations, and ends in the same cache and
heap state. -/
theorem variant_equivalence (ops : List Op) (cache : io_alloc_cache)
    (heap : Heap α) (size : Nat) :
    Part000.io_alloc_cache_init = Part001.io_alloc_cache_init ∧
    (Part000.run size cache heap ops).cache =
      (Part001.run cache heap ops).cache ∧
    (Part000.run size cache heap ops).heap =
      (Part001.run cache heap ops).heap ∧
    (Part000.run size cache heap ops).results =
      (Part001.run cache heap ops).results := by
  refine ⟨rfl, ?_⟩
  induction ops generalizing cache heap with
  | nil => exact ⟨rfl, rfl, rfl⟩
  | cons op ops ih =>
      have hstep :
          (Part000.runOp size cache heap op).1 =
            (Part001.runOp cache heap op).1 ∧
          (Part000.runOp size cache heap op).2.1 =
            (Part001.runOp cache heap op).2.1 ∧
          (Part000.runOp size cache heap op).2.2.1 =
            (Part001.runOp cache heap op).2.2.1 := by
        cases op with
        | put e =>
            obtain ⟨ho, hc, hh⟩ := put_equiv cache heap e
            simp [Part000.runOp, Part001.runOp, ho, hc, hh]
        | get =>
            obtain ⟨he, hc, hh⟩ := get_equiv cache heap size
            simp [Part000.runOp, Part001.runOp, he, hc, hh]
        | drain fuel =>
            obtain ⟨hc, hh, hf⟩ := free_equiv cache heap size fuel
            simp [Part000.runOp, Part001.runOp, hc, hh, hf]
      obtain ⟨h1, h2, h3⟩ := hstep
      have hih := ih (Part001.runOp cache heap op).1
        (Part001.runOp cache heap op).2.1
      simp only [Part000.run, Part001.run, h1, h2, h3]
      exact ⟨hih.1, hih.2.1, by rw [hih.2.2]⟩

end AllocCache
